import Mathlib

/-!
Verification development for the award-dashboard aggregation layer.

The definitions in this file are a shallow embedding of the TypeScript
source (the pure computation in `src/lib/directus.ts` and the award
creation route handler).  JavaScript specifics are modelled explicitly:
`null`/`undefined` become `Option`, the nullish operator `??` becomes
`jsNullish`, string truthiness `s || d` becomes `jsOr`, `.trim()` becomes
`jsTrim` (whitespace stripping on both ends), `Date.parse` becomes an
arbitrary parameter `dp : String → Option Int` (`none` models `NaN`, so
`Date.parse(x) || 0` becomes `(dp x).getD 0`), JavaScript `Map` objects
become insertion-ordered association lists (`alGet`/`alSet`), and
`Array.prototype.sort` (a stable comparison sort since ES2019) becomes a
stable sort by the numeric key of the comparator (`jsSortByDesc`).
-/

/-- The award status union type of the source. -/
inductive AwardStatus
  | pending
  | approved
  | rejected
deriving DecidableEq

/-- The award type union of the source. -/
inductive AwardType
  | individual
  | team
  | overall
deriving DecidableEq

/-- Serialization of a status, as it appears in request payloads. -/
def AwardStatus.toDirectus : AwardStatus → String
  | .pending => "pending"
  | .approved => "approved"
  | .rejected => "rejected"

/-- Serialization of an award type, as it appears in request payloads. -/
def AwardType.toDirectus : AwardType → String
  | .individual => "individual"
  | .team => "team"
  | .overall => "overall"

/-- Model of the JavaScript nullish operator `a ?? b`. -/
def jsNullish {α : Type} (a b : Option α) : Option α :=
  match a with
  | some x => some x
  | none => b

/-- Model of JavaScript `s || d` on strings: the empty string is falsy. -/
def jsOr (s d : String) : String :=
  if s = "" then d else s

/-- Model of JavaScript `String.prototype.trim`: strip whitespace from
both ends. -/
def jsTrim (s : String) : String :=
  ⟨((s.data.dropWhile Char.isWhitespace).reverse.dropWhile Char.isWhitespace).reverse⟩

/-- `DirectusUser` of the source: submitter name fields. -/
structure DirectusUser where
  first_name : Option String := none
  last_name : Option String := none
deriving DecidableEq

/-- `DirectusParticipant` of the source. -/
structure DirectusParticipant where
  id : Option Int := none
  first_name : Option String := none
  last_name : Option String := none
deriving DecidableEq

/-- View of a participant through the structural person type
`(first_name, last_name)` expected by `formatPersonName`; in TypeScript
this is implicit structural subtyping. -/
def DirectusParticipant.toUser (p : DirectusParticipant) : DirectusUser :=
  { first_name := p.first_name, last_name := p.last_name }

/-- `DirectusTeam` of the source. -/
structure DirectusTeam where
  id : Option Int := none
  name : Option String := none
deriving DecidableEq

/-- The inline category relation of `DirectusAwardRecord`. -/
structure AwardCategory where
  name : Option String := none
  color : Option String := none
deriving DecidableEq

/-- `DirectusAwardRecord` of the source. -/
structure DirectusAwardRecord where
  id : Int
  status : AwardStatus
  type : Option AwardType := none
  submitted_at : Option String := none
  approved_at : Option String := none
  category : Option AwardCategory := none
  participant_nominee : Option DirectusParticipant := none
  team_nominee : Option DirectusTeam := none
  submitted_by : Option DirectusUser := none
  ceremony : Option Int := none
deriving DecidableEq

/-- `formatPersonName` of the source: join the non-empty (after trimming)
name fields with a single space; absent person gives the empty string. -/
def formatPersonName (person : Option DirectusUser) : String :=
  match person with
  | none => ""
  | some p =>
    String.intercalate " "
      (([p.first_name, p.last_name].filterMap (fun x => x)).filter
        (fun part => decide (0 < (jsTrim part).length)))

/-- `getNomineeLabel` of the source. -/
def getNomineeLabel (award : DirectusAwardRecord) : String :=
  if award.type = some AwardType.individual ∧ award.participant_nominee.isSome then
    jsOr (formatPersonName (award.participant_nominee.map DirectusParticipant.toUser))
      "Individual nominee"
  else
    match award.team_nominee.bind (fun t => t.name) with
    | some n => if n = "" then "Nominee TBD" else n
    | none => "Nominee TBD"

/-- A JSON payload value: request bodies are modelled as insertion-ordered
lists of key-value pairs, so that a key sent as `null` is distinguished
from an omitted key. -/
inductive PayloadVal
  | str (s : String)
  | num (n : Int)
  | null
deriving DecidableEq

/-- Lookup in an insertion-ordered association list (model of JavaScript
object / `Map` read). -/
def alGet {β : Type} : List (String × β) → String → Option β
  | [], _ => none
  | p :: m, k => if p.1 = k then some p.2 else alGet m k

/-- Write in an insertion-ordered association list (model of JavaScript
object property assignment / `Map.set`): replace in place if the key is
present, append otherwise. -/
def alSet {β : Type} : List (String × β) → String → β → List (String × β)
  | [], k, v => [(k, v)]
  | p :: m, k, v => if p.1 = k then (k, v) :: m else p :: alSet m k v

/-- The PATCH payload built by `updateAwardStatus` for a target status,
with `now` the serialized current time: `status` plus `approved_at`,
which is the timestamp when the status is `approved` and `null`
otherwise. -/
def updateAwardStatusPayload (status : AwardStatus) (now : String) :
    List (String × PayloadVal) :=
  [("status", PayloadVal.str status.toDirectus),
   ("approved_at",
     if status = AwardStatus.approved then PayloadVal.str now else PayloadVal.null)]

/-- `CreateAwardInput` of the source. -/
structure CreateAwardInput where
  category : Int
  ceremony : Int
  type : AwardType
  participant_nominee : Option Int := none
  team_nominee : Option Int := none
  notes : Option String := none
  status : Option AwardStatus := none
deriving DecidableEq

/-- The POST payload built by `createAward`, with `now` the serialized
current time.  `notes` is appended only when present as a non-empty
string whose trimmed form is non-empty; `approved_at` is never a key. -/
def createAwardPayload (input : CreateAwardInput) (now : String) :
    List (String × PayloadVal) :=
  let base : List (String × PayloadVal) :=
    [("category", PayloadVal.num input.category),
     ("ceremony", PayloadVal.num input.ceremony),
     ("type", PayloadVal.str input.type.toDirectus),
     ("participant_nominee",
       ((jsNullish input.participant_nominee none).map PayloadVal.num).getD PayloadVal.null),
     ("team_nominee",
       ((jsNullish input.team_nominee none).map PayloadVal.num).getD PayloadVal.null),
     ("status", PayloadVal.str ((input.status.getD AwardStatus.pending).toDirectus)),
     ("submitted_at", PayloadVal.str now)]
  match input.notes with
  | some s => if s ≠ "" ∧ 0 < (jsTrim s).length then base ++ [("notes", PayloadVal.str s)] else base
  | none => base

/-- Model of `Array.prototype.sort` with the comparator
`(a, b) => k(b) - k(a)`, which orders a list descending by the numeric
key `k`.  `Array.prototype.sort` is a stable comparison sort, modelled
here by a stable insertion sort on the non-strict descending relation. -/
def jsSortByDesc {α : Type} (k : α → Int) (l : List α) : List α :=
  List.insertionSort (fun a b => k b ≤ k a) l

/-- Model of `Date.parse(s ?? "") || 0` for a nullable string `s`, given
the date parser `dp` (where `dp x = none` models `NaN`). -/
def jsDate (dp : String → Option Int) (s : Option String) : Int :=
  (dp (s.getD "")).getD 0

/-- The sort key used for `latestApproved`:
`Date.parse(a.approved_at ?? a.submitted_at ?? "") || 0`. -/
def approvedSortKey (dp : String → Option Int) (a : DirectusAwardRecord) : Int :=
  jsDate dp (jsNullish a.approved_at a.submitted_at)

/-- The sort key used for `latestPending`:
`Date.parse(a.submitted_at ?? "") || 0`. -/
def pendingSortKey (dp : String → Option Int) (a : DirectusAwardRecord) : Int :=
  jsDate dp a.submitted_at

/-- `award.category?.color ?? "gray"`. -/
def awardColor (a : DirectusAwardRecord) : String :=
  (a.category.bind (fun c => c.color)).getD "gray"

/-- `award.category?.name ?? "Unknown category"`. -/
def awardCategoryName (a : DirectusAwardRecord) : String :=
  (a.category.bind (fun c => c.name)).getD "Unknown category"

/-- An entry of `latestApproved` in `CeremonySummary`. -/
structure LatestEntry where
  id : Int
  categoryName : String
  categoryColor : String
  status : AwardStatus
  type : Option AwardType
  nominee : String
  submittedAt : Option String
  submittedBy : String
  ceremonyId : Option Int
deriving DecidableEq

/-- An entry of `latestPending` in `CeremonySummary`, and also of the
`pendingAwards` list of `buildParticipantTeamSummary` (the two object
shapes coincide in the source). -/
structure PendingEntry where
  id : Int
  categoryName : String
  categoryColor : String
  type : Option AwardType
  nominee : String
  submittedAt : Option String
  ceremonyId : Option Int
deriving DecidableEq

/-- A `colorBreakdown` entry. -/
structure ColorCount where
  color : String
  count : Nat
deriving DecidableEq

/-- The `metrics` object of `CeremonySummary`. -/
structure CeremonyMetrics where
  pending : Nat
  approved : Nat
  individualsAwarded : Nat
  teamsAwarded : Nat
deriving DecidableEq

/-- `CeremonySummary` of the source. -/
structure CeremonySummary where
  metrics : CeremonyMetrics
  latestApproved : List LatestEntry
  latestPending : List PendingEntry
  colorBreakdown : List ColorCount
deriving DecidableEq

/-- The `approvedAwards` local of `buildCeremonySummary`. -/
def approvedAwards (awards : List DirectusAwardRecord) : List DirectusAwardRecord :=
  awards.filter (fun a => decide (a.status = AwardStatus.approved))

/-- The `pendingAwards` local of `buildCeremonySummary`. -/
def pendingAwardsOf (awards : List DirectusAwardRecord) : List DirectusAwardRecord :=
  awards.filter (fun a => decide (a.status = AwardStatus.pending))

/-- The per-award projection used for `latestApproved` entries. -/
def latestEntryOf (a : DirectusAwardRecord) : LatestEntry :=
  { id := a.id
    categoryName := awardCategoryName a
    categoryColor := awardColor a
    status := a.status
    type := a.type
    nominee := getNomineeLabel a
    submittedAt := jsNullish a.approved_at a.submitted_at
    submittedBy := jsOr (formatPersonName a.submitted_by) "Unknown referee"
    ceremonyId := a.ceremony }

/-- The per-award projection used for `latestPending` entries. -/
def latestPendingEntryOf (a : DirectusAwardRecord) : PendingEntry :=
  { id := a.id
    categoryName := awardCategoryName a
    categoryColor := awardColor a
    type := a.type
    nominee := getNomineeLabel a
    submittedAt := a.submitted_at
    ceremonyId := a.ceremony }

/-- The `latestApproved` list of `buildCeremonySummary`: sort the approved
awards descending by `approvedSortKey`, keep 5, project. -/
def latestApprovedOf (dp : String → Option Int) (awards : List DirectusAwardRecord) :
    List LatestEntry :=
  ((jsSortByDesc (approvedSortKey dp) (approvedAwards awards)).take 5).map latestEntryOf

/-- The `latestPending` list of `buildCeremonySummary`: sort the pending
awards descending by `pendingSortKey`, keep 5, project. -/
def latestPendingOf (dp : String → Option Int) (awards : List DirectusAwardRecord) :
    List PendingEntry :=
  ((jsSortByDesc (pendingSortKey dp) (pendingAwardsOf awards)).take 5).map latestPendingEntryOf

/-- Truthiness of `award.team_nominee?.name` in JavaScript: the optional
chain is truthy exactly when a non-empty name string is present. -/
def jsTruthyName (o : Option String) : Bool :=
  match o with
  | some s => decide (s ≠ "")
  | none => false

/-- The `uniqueParticipants` set of `buildCeremonySummary`, as the
deduplicated list of formatted names: approved individual-type awards,
mapped to formatted participant names, keeping non-empty names.  The
JavaScript `Set` size is the length of this deduplicated list. -/
def uniqueParticipantNames (awards : List DirectusAwardRecord) : List String :=
  ((((approvedAwards awards).filter
      (fun a => decide (a.type = some AwardType.individual))).map
      (fun a => formatPersonName (a.participant_nominee.map DirectusParticipant.toUser))).filter
      (fun n => decide (0 < n.length))).dedup

/-- The `uniqueTeams` set of `buildCeremonySummary`, as the deduplicated
list of team-nominee names of approved awards (truthy name check, then
name with empty fallback, then non-empty filter, as in the source). -/
def uniqueTeamNames (awards : List DirectusAwardRecord) : List String :=
  ((((approvedAwards awards).filter
      (fun a => jsTruthyName (a.team_nominee.bind (fun t => t.name)))).map
      (fun a => (a.team_nominee.bind (fun t => t.name)).getD "")).filter
      (fun n => decide (0 < n.length))).dedup

/-- One `Map` update of the color histogram loop:
`colorMap.set(color, (colorMap.get(color) ?? 0) + 1)`. -/
def bumpColor (m : List (String × Nat)) (c : String) : List (String × Nat) :=
  alSet m c ((alGet m c).getD 0 + 1)

/-- The `colorMap` of `buildCeremonySummary`: fold the approved awards
into an insertion-ordered color histogram. -/
def colorMapOf (awards : List DirectusAwardRecord) : List (String × Nat) :=
  (approvedAwards awards).foldl (fun m a => bumpColor m (awardColor a)) []

/-- `buildCeremonySummary` of the source, parameterized by the date
parser `dp`. -/
def buildCeremonySummary (dp : String → Option Int) (awards : List DirectusAwardRecord) :
    CeremonySummary :=
  { metrics :=
      { pending := (pendingAwardsOf awards).length
        approved := (approvedAwards awards).length
        individualsAwarded := (uniqueParticipantNames awards).length
        teamsAwarded := (uniqueTeamNames awards).length }
    latestApproved := latestApprovedOf dp awards
    latestPending := latestPendingOf dp awards
    colorBreakdown := (colorMapOf awards).map (fun p => { color := p.1, count := p.2 }) }

/-- The per-award projection of the `pendingAwards` list built inside
`buildParticipantTeamSummary`.  Unlike `getNomineeLabel`, an
individual-type award takes the formatted participant name (with the
"Individual nominee" fallback) without checking that the relation is
present, and any other award takes `team_nominee?.name ?? "Team
nominee"`. -/
def pendingAwardEntryOf (a : DirectusAwardRecord) : PendingEntry :=
  { id := a.id
    categoryName := awardCategoryName a
    categoryColor := awardColor a
    type := a.type
    nominee :=
      if a.type = some AwardType.individual then
        jsOr (formatPersonName (a.participant_nominee.map DirectusParticipant.toUser))
          "Individual nominee"
      else
        (a.team_nominee.bind (fun t => t.name)).getD "Team nominee"
    submittedAt := a.submitted_at
    ceremonyId := a.ceremony }

/-- The `pendingAwards` list of `buildParticipantTeamSummary`: project
every pending award, then sort descending by the parsed `submittedAt` of
the projected entry. -/
def participantTeamPendingAwards (dp : String → Option Int)
    (awards : List DirectusAwardRecord) : List PendingEntry :=
  jsSortByDesc (fun e => jsDate dp e.submittedAt)
    ((awards.filter (fun a => decide (a.status = AwardStatus.pending))).map pendingAwardEntryOf)

/-- Request body of the award-creation route.  The id fields hold `some n`
exactly when the corresponding JSON field is a number (the handler maps
every other value to `null` through its `typeof` checks); `type` follows
the TypeScript annotation of the handler (`"individual" | "team" |
"overall" | undefined`). -/
structure PostBody where
  ceremonyId : Option Int := none
  ceremony : Option Int := none
  categoryId : Option Int := none
  category : Option Int := none
  type : Option AwardType := none
  participantId : Option Int := none
  participant_nominee : Option Int := none
  teamId : Option Int := none
  team_nominee : Option Int := none
  notes : Option String := none
deriving DecidableEq

/-- Responses produced by the award-creation route handler. -/
inductive PostResponse
  | badRequest (message : String)
  | created (award : DirectusAwardRecord)
  | serverError (message : String)
deriving DecidableEq

/-- The HTTP status code attached to each response of the handler. -/
def PostResponse.statusCode : PostResponse → Nat
  | .badRequest _ => 400
  | .created _ => 201
  | .serverError _ => 500

/-- JavaScript falsiness of the extracted nullable numeric id:
`!x` holds for `null` and for `0`. -/
def jsFalsyId (o : Option Int) : Bool :=
  match o with
  | none => true
  | some n => decide (n = 0)

/-- The `try { createAward(...) } catch` tail of the handler: a store
success becomes a 201 response carrying the created record, a store
failure becomes the generic 500 response. -/
def applyStore (store : CreateAwardInput → Except Unit DirectusAwardRecord)
    (i : CreateAwardInput) : PostResponse :=
  match store i with
  | Except.ok award => PostResponse.created award
  | Except.error _ => PostResponse.serverError "Failed to create award."

/-- The POST handler of the award-creation route, with the store call
abstracted as `store`.  The single guard
`!ceremonyId || !categoryId || !type` of the source is split into the
missing-type match and the falsy-id test, which is observationally the
same disjunction. -/
def postAward (store : CreateAwardInput → Except Unit DirectusAwardRecord)
    (body : PostBody) : PostResponse :=
  let ceremonyId := jsNullish body.ceremonyId body.ceremony
  let categoryId := jsNullish body.categoryId body.category
  let participantId := jsNullish body.participantId body.participant_nominee
  let teamId := jsNullish body.teamId body.team_nominee
  match body.type with
  | none => PostResponse.badRequest "Missing ceremony, category, or type information."
  | some ty =>
    if jsFalsyId ceremonyId || jsFalsyId categoryId then
      PostResponse.badRequest "Missing ceremony, category, or type information."
    else if decide (ty = AwardType.individual) && jsFalsyId participantId then
      PostResponse.badRequest "Participant award requires a participant nominee."
    else if decide (ty ≠ AwardType.individual) && jsFalsyId teamId then
      PostResponse.badRequest "Team or overall award requires a team nominee."
    else
      applyStore store
        { ceremony := ceremonyId.getD 0
          category := categoryId.getD 0
          type := ty
          participant_nominee :=
            if ty = AwardType.individual then jsNullish participantId none else none
          team_nominee :=
            if ty = AwardType.individual then none else jsNullish teamId none
          notes := body.notes
          status := none }

/-- The claim-side validation condition for award creation: ceremony id,
category id or type missing (a JavaScript-falsy extracted id counts as
missing), an individual-type request without a participant nominee id,
or a team- or overall-type request without a team nominee id. -/
def postValidationFails (body : PostBody) : Prop :=
  jsFalsyId (jsNullish body.ceremonyId body.ceremony) = true ∨
  jsFalsyId (jsNullish body.categoryId body.category) = true ∨
  body.type = none ∨
  (body.type = some AwardType.individual ∧
    jsFalsyId (jsNullish body.participantId body.participant_nominee) = true) ∨
  ((body.type = some AwardType.team ∨ body.type = some AwardType.overall) ∧
    jsFalsyId (jsNullish body.teamId body.team_nominee) = true)

/-- Modelled from the spec sentence defining `latestApproved` (section
4.3): top 5 approved awards ordered descending by `approved_at` if
present else `submitted_at`, missing or unparsable dates sorting as
epoch 0; each entry carries id, category name and color with the
"Unknown category" and "gray" defaults, status, type, nominee label, the
display timestamp used for sorting, the formatted submitter name with
the "Unknown referee" default, and the ceremony id. -/
def latestApprovedSpec (dp : String → Option Int) (awards : List DirectusAwardRecord) :
    List LatestEntry :=
  let approved := awards.filter (fun a => decide (a.status = AwardStatus.approved))
  let key : DirectusAwardRecord → Int := fun a =>
    match jsNullish a.approved_at a.submitted_at with
    | none => 0
    | some s => (dp s).getD 0
  ((jsSortByDesc key approved).take 5).map (fun a =>
    { id := a.id
      categoryName := (a.category.bind (fun c => c.name)).getD "Unknown category"
      categoryColor := (a.category.bind (fun c => c.color)).getD "gray"
      status := a.status
      type := a.type
      nominee := getNomineeLabel a
      submittedAt := jsNullish a.approved_at a.submitted_at
      submittedBy := jsOr (formatPersonName a.submitted_by) "Unknown referee"
      ceremonyId := a.ceremony })

/-- Modelled from the spec sentence defining the nominee label (section
4.2): for an individual-type award with a participant nominee present,
the formatted name, or "Individual nominee" when that name is empty;
otherwise the team nominee name when present and non-empty; otherwise
"Nominee TBD". -/
def nomineeLabelSpec (award : DirectusAwardRecord) : String :=
  match award.type, award.participant_nominee with
  | some AwardType.individual, some p =>
    if formatPersonName (some (DirectusParticipant.toUser p)) = "" then "Individual nominee"
    else formatPersonName (some (DirectusParticipant.toUser p))
  | _, _ =>
    match award.team_nominee.bind (fun t => t.name) with
    | some n => if n ≠ "" then n else "Nominee TBD"
    | none => "Nominee TBD"

/-- A concrete approved award (all relations absent), used to evaluate
the aggregation on closed inputs. -/
def sampleApproved : DirectusAwardRecord :=
  { id := 1, status := AwardStatus.approved }

/-- A concrete pending team-type award (no team nominee), used to
evaluate the aggregation on closed inputs. -/
def samplePending : DirectusAwardRecord :=
  { id := 2, status := AwardStatus.pending, type := some AwardType.team }

/-- A concrete store that accepts every creation request. -/
def sampleStore : CreateAwardInput → Except Unit DirectusAwardRecord :=
  fun i => Except.ok { id := 1, status := i.status.getD AwardStatus.pending }

/-- A concrete date parser that fails on every string, as Date.parse does
on the inputs of the closed evaluations below. -/
def dpNone : String → Option Int :=
  fun _ => none

theorem jsSortByDesc_perm {α : Type} (k : α → Int) (l : List α) :
    List.Perm (jsSortByDesc k l) l :=
  List.perm_insertionSort _ l

theorem jsSortByDesc_pairwise {α : Type} (k : α → Int) (l : List α) :
    (jsSortByDesc k l).Pairwise (fun a b => k b ≤ k a) := by
  haveI : IsTotal α (fun a b => k b ≤ k a) := ⟨fun a b => le_total (k b) (k a)⟩
  haveI : IsTrans α (fun a b => k b ≤ k a) := ⟨fun a b c h1 h2 => le_trans h2 h1⟩
  exact List.sorted_insertionSort _ l

theorem sorted_key_inj_perm_eq {α : Type} (k : α → Int) :
    ∀ (l₁ l₂ : List α), List.Perm l₁ l₂ →
      l₁.Pairwise (fun a b => k b ≤ k a) → l₂.Pairwise (fun a b => k b ≤ k a) →
      (∀ a ∈ l₁, ∀ b ∈ l₁, k a = k b → a = b) → l₁ = l₂ := by
  intro l₁
  induction l₁ with
  | nil =>
    intro l₂ h _ _ _
    exact (h.symm.eq_nil).symm
  | cons a t₁ ih =>
    intro l₂ h hp₁ hp₂ hinj
    cases l₂ with
    | nil => exact absurd h.eq_nil (by simp)
    | cons b t₂ =>
      have ha2 : a ∈ b :: t₂ := h.mem_iff.mp (List.mem_cons_self a t₁)
      have hb1 : b ∈ a :: t₁ := h.symm.mem_iff.mp (List.mem_cons_self b t₂)
      have hp₁c := List.pairwise_cons.mp hp₁
      have hp₂c := List.pairwise_cons.mp hp₂
      have hkab : k a = k b := by
        have h1 : k a ≤ k b := by
          rcases List.mem_cons.mp ha2 with heq | hmem
          · rw [heq]
          · exact hp₂c.1 a hmem
        have h2 : k b ≤ k a := by
          rcases List.mem_cons.mp hb1 with heq | hmem
          · rw [heq]
          · exact hp₁c.1 b hmem
        exact le_antisymm h1 h2
      have hab : a = b := hinj a (List.mem_cons_self a t₁) b hb1 hkab
      subst hab
      have ht : List.Perm t₁ t₂ := h.cons_inv
      have := ih t₂ ht hp₁c.2 hp₂c.2
        (fun x hx y hy hxy => hinj x (List.mem_cons_of_mem a hx) y (List.mem_cons_of_mem a hy) hxy)
      rw [this]

theorem jsSortByDesc_perm_eq {α : Type} (k : α → Int) (l l' : List α)
    (h : List.Perm l l') (hinj : ∀ a ∈ l, ∀ b ∈ l, k a = k b → a = b) :
    jsSortByDesc k l = jsSortByDesc k l' := by
  apply sorted_key_inj_perm_eq k
  · exact (jsSortByDesc_perm k l).trans (h.trans (jsSortByDesc_perm k l').symm)
  · exact jsSortByDesc_pairwise k l
  · exact jsSortByDesc_pairwise k l'
  · intro a ha b hb
    exact hinj a ((jsSortByDesc_perm k l).mem_iff.mp ha) b ((jsSortByDesc_perm k l).mem_iff.mp hb)

theorem alGet_alSet {β : Type} (m : List (String × β)) (j k : String) (v : β) :
    alGet (alSet m j v) k = if j = k then some v else alGet m k := by
  induction m with
  | nil => simp [alSet, alGet]
  | cons p m ih =>
    by_cases hj : p.1 = j
    · by_cases hk : j = k <;> simp [alSet, alGet, hj, hk]
    · by_cases hk : p.1 = k
      · have h1 : ¬ j = k := fun h => hj (h ▸ hk)
        have h2 : ¬ k = j := fun h => h1 h.symm
        simp [alSet, alGet, hj, hk, h1, h2]
      · simp [alSet, alGet, hj, hk, ih]

theorem alSet_keys {β : Type} (m : List (String × β)) (j : String) (v : β) :
    (alSet m j v).map Prod.fst =
      if j ∈ m.map Prod.fst then m.map Prod.fst else m.map Prod.fst ++ [j] := by
  induction m with
  | nil => simp [alSet]
  | cons p m ih =>
    by_cases hj : p.1 = j
    · simp [alSet, hj]
    · have hne : ¬ j = p.1 := fun h => hj h.symm
      by_cases hmem : j ∈ m.map Prod.fst <;>
        simp [alSet, hj, hne, hmem, ih]

theorem alGet_bumpColor (m : List (String × Nat)) (c k : String) :
    alGet (bumpColor m c) k =
      if c = k then some ((alGet m c).getD 0 + 1) else alGet m k := by
  unfold bumpColor
  rw [alGet_alSet]

theorem bumpColor_keys_nodup (m : List (String × Nat)) (c : String)
    (h : (m.map Prod.fst).Nodup) : ((bumpColor m c).map Prod.fst).Nodup := by
  unfold bumpColor
  rw [alSet_keys]
  by_cases hmem : c ∈ m.map Prod.fst
  · simpa [hmem] using h
  · simp [hmem, List.nodup_append, h, List.disjoint_singleton]

theorem bumpColor_sum (m : List (String × Nat)) (c : String) :
    ((bumpColor m c).map Prod.snd).sum = (m.map Prod.snd).sum + 1 := by
  induction m with
  | nil => simp [bumpColor, alSet, alGet]
  | cons p m ih =>
    by_cases hc : p.1 = c
    · simp [bumpColor, alSet, alGet, hc]
      omega
    · simp only [bumpColor, alSet, alGet, hc, if_false, ite_false] at ih ⊢
      simp only [List.map_cons, List.sum_cons]
      omega

theorem foldl_bump_map {α : Type} (f : α → String) :
    ∀ (l : List α) (m : List (String × Nat)),
      l.foldl (fun m a => bumpColor m (f a)) m = (l.map f).foldl bumpColor m := by
  intro l
  induction l with
  | nil => intro m; rfl
  | cons a l ih => intro m; simp [List.foldl_cons, List.map_cons, ih]

theorem foldl_bump_keys_nodup :
    ∀ (colors : List String) (m : List (String × Nat)),
      (m.map Prod.fst).Nodup → ((colors.foldl bumpColor m).map Prod.fst).Nodup := by
  intro colors
  induction colors with
  | nil => intro m h; exact h
  | cons c cs ih => intro m h; exact ih _ (bumpColor_keys_nodup m c h)

theorem foldl_bump_sum :
    ∀ (colors : List String) (m : List (String × Nat)),
      ((colors.foldl bumpColor m).map Prod.snd).sum = (m.map Prod.snd).sum + colors.length := by
  intro colors
  induction colors with
  | nil => intro m; simp
  | cons c cs ih =>
    intro m
    rw [List.foldl_cons, ih, bumpColor_sum]
    simp
    omega

theorem alGet_foldl_bump :
    ∀ (colors : List String) (m : List (String × Nat)) (k : String),
      alGet (colors.foldl bumpColor m) k =
        (match alGet m k with
         | some v => some (v + colors.count k)
         | none => if colors.count k = 0 then none else some (colors.count k)) := by
  intro colors
  induction colors with
  | nil => intro m k; cases h : alGet m k <;> simp [h]
  | cons c cs ih =>
    intro m k
    rw [List.foldl_cons, ih, alGet_bumpColor]
    by_cases hck : c = k
    · subst hck
      cases h : alGet m c <;> simp [h, List.count_cons] <;> omega
    · have hkc : ¬ k = c := fun h => hck h.symm
      cases h : alGet m k <;> simp [h, List.count_cons, hck, hkc]

theorem alGet_colorTally (colors : List String) (k : String) :
    alGet (colors.foldl bumpColor []) k =
      if colors.count k = 0 then none else some (colors.count k) := by
  rw [alGet_foldl_bump]
  simp [alGet]

theorem mem_iff_alGet {β : Type} :
    ∀ (m : List (String × β)), (m.map Prod.fst).Nodup →
      ∀ (p : String × β), p ∈ m ↔ alGet m p.1 = some p.2 := by
  intro m
  induction m with
  | nil => intro _ p; simp [alGet]
  | cons q m ih =>
    intro hnd p
    rw [List.map_cons, List.nodup_cons] at hnd
    by_cases hqp : q.1 = p.1
    · simp only [alGet, hqp, if_pos rfl, List.mem_cons]
      constructor
      · rintro (rfl | hpm)
        · rfl
        · exact absurd (hqp ▸ (List.mem_map_of_mem Prod.fst hpm)) hnd.1
      · intro h
        left
        have h2 : q.2 = p.2 := Option.some.inj h
        exact Prod.ext hqp.symm h2.symm ▸ rfl
    · simp only [alGet, hqp, if_neg hqp, List.mem_cons]
      rw [ih hnd.2 p]
      constructor
      · rintro (rfl | h)
        · exact absurd rfl hqp
        · exact h
      · intro h
        right
        exact h

theorem string_length_pos_iff (s : String) : 0 < s.length ↔ s ≠ "" := by
  obtain ⟨data⟩ := s
  show 0 < data.length ↔ _
  rw [List.length_pos]
  exact not_congr String.ext_iff.symm

theorem teamNames_filterMap :
    ∀ (l : List DirectusAwardRecord),
      ((l.filter (fun a => jsTruthyName (a.team_nominee.bind (fun t => t.name)))).map
        (fun a => (a.team_nominee.bind (fun t => t.name)).getD ""))
      = (l.filterMap (fun a => a.team_nominee.bind (fun t => t.name))).filter
          (fun n => decide (n ≠ "")) := by
  intro l
  have hnone : jsTruthyName none = false := rfl
  have hsome : ∀ s, jsTruthyName (some s) = decide (s ≠ "") := fun _ => rfl
  induction l with
  | nil => rfl
  | cons a l ih =>
    simp only [List.filter_cons, List.filterMap_cons]
    cases h : a.team_nominee.bind (fun t => t.name) with
    | none =>
      rw [hnone]
      simp [ih]
    | some s =>
      rw [hsome s]
      by_cases hs : s = "" <;> simp [List.filter_cons, hs, h, ih]

theorem status_filter_partition :
    ∀ (l : List DirectusAwardRecord),
      (l.filter (fun a => decide (a.status = AwardStatus.pending))).length +
      (l.filter (fun a => decide (a.status = AwardStatus.approved))).length +
      (l.filter (fun a => decide (a.status = AwardStatus.rejected))).length = l.length := by
  intro l
  induction l with
  | nil => rfl
  | cons a l ih =>
    cases h : a.status <;> simp [List.filter_cons, h] <;> omega

/-- C1: for every previous status, target status and current timestamp,
the payload sent by updateAwardStatus has an approved_at key equal to the
(non-null) current timestamp exactly when the target status is approved,
and equal to null for every other target status.  The payload is built
from the target status and the clock alone, so the property holds for
all nine from-status times to-status transitions. -/
theorem updateAwardStatus_approved_at (fromStatus toStatus : AwardStatus) (now : String) :
    (alGet (updateAwardStatusPayload toStatus now) "approved_at"
        = some (PayloadVal.str now) ↔ toStatus = AwardStatus.approved)
  ∧ (toStatus ≠ AwardStatus.approved →
      alGet (updateAwardStatusPayload toStatus now) "approved_at" = some PayloadVal.null) := by
  cases toStatus <;> simp [updateAwardStatusPayload, alGet]

/-- Witness for C1, applying the theorem at a pending-to-rejected
transition. -/
theorem updateAwardStatus_approved_at_witness :
    alGet (updateAwardStatusPayload AwardStatus.rejected "2024-06-01T10:00:00.000Z")
      "approved_at" = some PayloadVal.null :=
  (updateAwardStatus_approved_at AwardStatus.pending AwardStatus.rejected
    "2024-06-01T10:00:00.000Z").2 (by decide)

/-- C5: for every award list, the pending metric plus the approved metric
plus the number of rejected input awards equals the input length: the
three statuses partition the input exhaustively and exclusively. -/
theorem ceremonySummary_status_partition (dp : String → Option Int)
    (awards : List DirectusAwardRecord) :
    (buildCeremonySummary dp awards).metrics.pending +
      (buildCeremonySummary dp awards).metrics.approved +
      (awards.filter (fun a => decide (a.status = AwardStatus.rejected))).length
      = awards.length := by
  show (pendingAwardsOf awards).length + (approvedAwards awards).length + _ = _
  unfold pendingAwardsOf approvedAwards
  exact status_filter_partition awards

/-- C7: the nominee label function is total (it is a Lean function on all
award records, malformed relations included) and agrees everywhere with
the claim case analysis captured by nomineeLabelSpec: formatted
participant name or "Individual nominee" for individual-type awards with
a participant nominee present, else a present non-empty team name, else
"Nominee TBD". -/
theorem getNomineeLabel_total_spec (award : DirectusAwardRecord) :
    getNomineeLabel award = nomineeLabelSpec award := by
  obtain ⟨aid, st, ty, sub, app, cat, pn, tn, sb, cer⟩ := award
  have hteam : ∀ o : Option String,
      (match o with
       | some n => if n = "" then "Nominee TBD" else n
       | none => "Nominee TBD")
      = (match o with
         | some n => if n ≠ "" then n else "Nominee TBD"
         | none => "Nominee TBD") := by
    intro o
    cases o with
    | none => rfl
    | some n => by_cases hn : n = "" <;> simp [hn]
  cases ty with
  | none => cases pn <;> simp [getNomineeLabel, nomineeLabelSpec, hteam]
  | some t => cases t <;> cases pn <;> simp [getNomineeLabel, nomineeLabelSpec, hteam, jsOr]

/-- C8: the creation payload defaults status to pending when the input
carries none, stamps submitted_at with the current time, omits the
approved_at key entirely, and includes a notes key with the given string
exactly when the notes input is present and non-empty after trimming. -/
theorem createAward_payload_shape (input : CreateAwardInput) (now : String) :
    alGet (createAwardPayload input now) "status"
        = some (PayloadVal.str ((input.status.getD AwardStatus.pending).toDirectus))
  ∧ alGet (createAwardPayload input now) "submitted_at" = some (PayloadVal.str now)
  ∧ alGet (createAwardPayload input now) "approved_at" = none
  ∧ alGet (createAwardPayload input now) "notes"
      = (match input.notes with
         | some s => if 0 < (jsTrim s).length then some (PayloadVal.str s) else none
         | none => none) := by
  have hempty : ∀ s : String, 0 < (jsTrim s).length → s ≠ "" := by
    intro s h heq
    subst heq
    exact absurd h (by decide)
  cases hn : input.notes with
  | none => simp [createAwardPayload, alGet, hn]
  | some s =>
    by_cases ht : 0 < (jsTrim s).length
    · have hs : s ≠ "" := hempty s ht
      simp [createAwardPayload, alGet, hn, ht, hs]
    · simp [createAwardPayload, alGet, hn, ht]

/-- C2: individualsAwarded is the number of distinct non-empty formatted
participant names among approved individual-type awards (distinctness by
the name string), and teamsAwarded is the number of distinct non-empty
team-nominee names among all approved awards, with no filter on the
award type. -/
theorem ceremonySummary_distinct_counts (dp : String → Option Int)
    (awards : List DirectusAwardRecord) :
    (buildCeremonySummary dp awards).metrics.individualsAwarded
      = ((((awards.filter (fun a => decide (a.status = AwardStatus.approved))).filter
            (fun a => decide (a.type = some AwardType.individual))).map
            (fun a => formatPersonName (a.participant_nominee.map DirectusParticipant.toUser))).filter
            (fun n => decide (n ≠ ""))).toFinset.card
  ∧ (buildCeremonySummary dp awards).metrics.teamsAwarded
      = (((awards.filter (fun a => decide (a.status = AwardStatus.approved))).filterMap
            (fun a => a.team_nominee.bind (fun t => t.name))).filter
            (fun n => decide (n ≠ ""))).toFinset.card := by
  constructor
  · show (uniqueParticipantNames awards).length = _
    rw [List.card_toFinset]
    unfold uniqueParticipantNames approvedAwards
    congr 1
    congr 1
    apply List.filter_congr
    intro n _
    exact decide_eq_decide.mpr (string_length_pos_iff n)
  · show (uniqueTeamNames awards).length = _
    rw [List.card_toFinset]
    unfold uniqueTeamNames approvedAwards
    congr 1
    congr 1
    rw [teamNames_filterMap]
    rw [List.filter_filter]
    apply List.filter_congr
    intro n _
    by_cases hn : n = ""
    · simp [hn]
    · simp [hn, (string_length_pos_iff n).mpr hn]

/-- C9: the colors of colorBreakdown are pairwise distinct, every entry
has a count of at least 1 equal to the number of approved awards carrying
that color (with the gray default), and the counts sum to the approved
metric. -/
theorem colorBreakdown_histogram (dp : String → Option Int)
    (awards : List DirectusAwardRecord) :
    ((buildCeremonySummary dp awards).colorBreakdown.map ColorCount.color).Nodup
  ∧ (∀ e ∈ (buildCeremonySummary dp awards).colorBreakdown,
      1 ≤ e.count ∧ e.count = ((approvedAwards awards).map awardColor).count e.color)
  ∧ ((buildCeremonySummary dp awards).colorBreakdown.map ColorCount.count).sum
      = (buildCeremonySummary dp awards).metrics.approved := by
  have hfold : colorMapOf awards
      = ((approvedAwards awards).map awardColor).foldl bumpColor [] := by
    unfold colorMapOf
    exact foldl_bump_map awardColor (approvedAwards awards) []
  have hnodup : ((colorMapOf awards).map Prod.fst).Nodup := by
    rw [hfold]
    exact foldl_bump_keys_nodup _ [] (by simp)
  refine ⟨?_, ?_, ?_⟩
  · show (((colorMapOf awards).map
        (fun p => ({ color := p.1, count := p.2 } : ColorCount))).map ColorCount.color).Nodup
    rw [List.map_map]
    exact hnodup
  · intro e he
    have he2 : e ∈ (colorMapOf awards).map
        (fun p => ({ color := p.1, count := p.2 } : ColorCount)) := he
    obtain ⟨p, hp, rfl⟩ := List.mem_map.mp he2
    rw [hfold] at hp
    have hget := (mem_iff_alGet _ (hfold ▸ hnodup) p).mp hp
    rw [alGet_colorTally] at hget
    by_cases hc : ((approvedAwards awards).map awardColor).count p.1 = 0
    · rw [if_pos hc] at hget
      exact absurd hget (by simp)
    · rw [if_neg hc] at hget
      have hcount := Option.some.inj hget
      rw [hcount] at hc
      exact ⟨Nat.one_le_iff_ne_zero.mpr hc, hcount.symm⟩
  · show (((colorMapOf awards).map
        (fun p => ({ color := p.1, count := p.2 } : ColorCount))).map ColorCount.count).sum
      = (approvedAwards awards).length
    rw [List.map_map]
    show ((colorMapOf awards).map Prod.snd).sum = _
    rw [hfold, foldl_bump_sum]
    simp

/-- Witness for C9, applying the theorem to a single approved award with
no category: the gray bucket has count 1. -/
theorem colorBreakdown_histogram_witness :
    1 ≤ (ColorCount.mk "gray" 1).count
  ∧ (ColorCount.mk "gray" 1).count
      = ((approvedAwards [sampleApproved]).map awardColor).count (ColorCount.mk "gray" 1).color :=
  (colorBreakdown_histogram dpNone [sampleApproved]).2.1 (ColorCount.mk "gray" 1) (by decide)

/-- C3: latestApproved equals the spec-side definition on every award
list, for every date parser that fails on the empty string (as Date.parse
does): first 5 approved awards sorted descending by the
approved-at-else-submitted-at timestamp with missing or unparsable dates
as epoch 0, each entry carrying the documented fields and defaults. -/
theorem latestApproved_refines_spec (dp : String → Option Int) (hdp : dp "" = none)
    (awards : List DirectusAwardRecord) :
    (buildCeremonySummary dp awards).latestApproved = latestApprovedSpec dp awards := by
  show latestApprovedOf dp awards = latestApprovedSpec dp awards
  have hkey : approvedSortKey dp = fun a =>
      (match jsNullish a.approved_at a.submitted_at with
       | none => 0
       | some s => (dp s).getD 0) := by
    funext a
    unfold approvedSortKey jsDate
    cases h : jsNullish a.approved_at a.submitted_at with
    | none => simp [h, hdp]
    | some s => simp [h]
  unfold latestApprovedOf latestApprovedSpec
  rw [hkey]
  rfl

/-- Witness for C3, applying the theorem with the everywhere-failing date
parser on a two-element list. -/
theorem latestApproved_refines_spec_witness :
    (buildCeremonySummary dpNone [sampleApproved, samplePending]).latestApproved
      = latestApprovedSpec dpNone [sampleApproved, samplePending] :=
  latestApproved_refines_spec dpNone rfl [sampleApproved, samplePending]

/-- C10: in the pendingAwards projection of buildParticipantTeamSummary,
a pending award whose type is not individual and whose team nominee name
is absent is labelled "Team nominee" (not the "Nominee TBD" fallback of
the nominee-label helper), and a pending individual-type award takes the
formatted participant name with the "Individual nominee" fallback, even
when the participant relation is entirely null. -/
theorem participantTeamPending_nominee (dp : String → Option Int)
    (awards : List DirectusAwardRecord) (a : DirectusAwardRecord)
    (hmem : a ∈ awards) (hp : a.status = AwardStatus.pending) :
    pendingAwardEntryOf a ∈ participantTeamPendingAwards dp awards
  ∧ (a.type ≠ some AwardType.individual → a.team_nominee.bind (fun t => t.name) = none →
      (pendingAwardEntryOf a).nominee = "Team nominee")
  ∧ (a.type = some AwardType.individual → (pendingAwardEntryOf a).nominee =
      jsOr (formatPersonName (a.participant_nominee.map DirectusParticipant.toUser))
        "Individual nominee")
  ∧ (a.type = some AwardType.individual → a.participant_nominee = none →
      (pendingAwardEntryOf a).nominee = "Individual nominee") := by
  refine ⟨?_, ?_, ?_, ?_⟩
  · unfold participantTeamPendingAwards
    rw [(jsSortByDesc_perm _ _).mem_iff]
    exact List.mem_map_of_mem _ (List.mem_filter.mpr ⟨hmem, by simp [hp]⟩)
  · intro ht hn
    simp [pendingAwardEntryOf, ht, hn]
  · intro ht
    simp [pendingAwardEntryOf, ht]
  · intro ht hpn
    simp [pendingAwardEntryOf, ht, hpn, jsOr, formatPersonName]

/-- Witness for C10, applying the theorem to a pending team-type award
without a team nominee. -/
theorem participantTeamPending_nominee_witness :
    (pendingAwardEntryOf samplePending).nominee = "Team nominee" :=
  (participantTeamPending_nominee dpNone [samplePending] samplePending
    (List.mem_singleton.mpr rfl) rfl).2.1 (by decide) rfl

theorem colorTally_perm (colors colors2 : List String) (h : List.Perm colors colors2) :
    List.Perm (colors.foldl bumpColor []) (colors2.foldl bumpColor []) := by
  have h1 : ((colors.foldl bumpColor []).map Prod.fst).Nodup :=
    foldl_bump_keys_nodup _ [] (by simp)
  have h2 : ((colors2.foldl bumpColor []).map Prod.fst).Nodup :=
    foldl_bump_keys_nodup _ [] (by simp)
  apply List.perm_of_nodup_nodup_toFinset_eq (h1.of_map) (h2.of_map)
  ext p
  simp only [List.mem_toFinset]
  rw [mem_iff_alGet _ h1 p, mem_iff_alGet _ h2 p, alGet_colorTally, alGet_colorTally,
    h.count_eq]

/-- C6: buildCeremonySummary is order-independent: permuting the input
leaves the metrics unchanged, permutes colorBreakdown as a multiset of
color-count pairs, and leaves latestApproved and latestPending unchanged
whenever the corresponding sort keys have no ties among approved
(respectively pending) awards, which is the documented tie-break
caveat. -/
theorem buildCeremonySummary_order_independent (dp : String → Option Int)
    (awards awards2 : List DirectusAwardRecord) (hperm : List.Perm awards awards2) :
    (buildCeremonySummary dp awards).metrics = (buildCeremonySummary dp awards2).metrics
  ∧ List.Perm (buildCeremonySummary dp awards).colorBreakdown
      (buildCeremonySummary dp awards2).colorBreakdown
  ∧ ((∀ a ∈ awards, ∀ b ∈ awards, a.status = AwardStatus.approved →
        b.status = AwardStatus.approved → approvedSortKey dp a = approvedSortKey dp b → a = b) →
      (buildCeremonySummary dp awards).latestApproved
        = (buildCeremonySummary dp awards2).latestApproved)
  ∧ ((∀ a ∈ awards, ∀ b ∈ awards, a.status = AwardStatus.pending →
        b.status = AwardStatus.pending → pendingSortKey dp a = pendingSortKey dp b → a = b) →
      (buildCeremonySummary dp awards).latestPending
        = (buildCeremonySummary dp awards2).latestPending) := by
  have happr : List.Perm (approvedAwards awards) (approvedAwards awards2) := hperm.filter _
  have hpend : List.Perm (pendingAwardsOf awards) (pendingAwardsOf awards2) := hperm.filter _
  refine ⟨?_, ?_, ?_, ?_⟩
  · have h1 : (pendingAwardsOf awards).length = (pendingAwardsOf awards2).length :=
      hpend.length_eq
    have h2 : (approvedAwards awards).length = (approvedAwards awards2).length :=
      happr.length_eq
    have h3 : (uniqueParticipantNames awards).length = (uniqueParticipantNames awards2).length := by
      unfold uniqueParticipantNames
      exact (((happr.filter _).map _).filter _).dedup.length_eq
    have h4 : (uniqueTeamNames awards).length = (uniqueTeamNames awards2).length := by
      unfold uniqueTeamNames
      exact (((happr.filter _).map _).filter _).dedup.length_eq
    show CeremonyMetrics.mk _ _ _ _ = CeremonyMetrics.mk _ _ _ _
    rw [h1, h2, h3, h4]
  · have hcolors : List.Perm ((approvedAwards awards).map awardColor)
        ((approvedAwards awards2).map awardColor) := happr.map _
    have htally := colorTally_perm _ _ hcolors
    show List.Perm ((colorMapOf awards).map _) ((colorMapOf awards2).map _)
    rw [show colorMapOf awards = ((approvedAwards awards).map awardColor).foldl bumpColor []
        from foldl_bump_map awardColor _ [],
      show colorMapOf awards2 = ((approvedAwards awards2).map awardColor).foldl bumpColor []
        from foldl_bump_map awardColor _ []]
    exact htally.map _
  · intro hinj
    show latestApprovedOf dp awards = latestApprovedOf dp awards2
    unfold latestApprovedOf
    have hinj2 : ∀ a ∈ approvedAwards awards, ∀ b ∈ approvedAwards awards,
        approvedSortKey dp a = approvedSortKey dp b → a = b := by
      intro a ha b hb hk
      have ha2 := List.mem_filter.mp ha
      have hb2 := List.mem_filter.mp hb
      exact hinj a ha2.1 b hb2.1 (of_decide_eq_true ha2.2) (of_decide_eq_true hb2.2) hk
    rw [jsSortByDesc_perm_eq (approvedSortKey dp) _ _ happr hinj2]
  · intro hinj
    show latestPendingOf dp awards = latestPendingOf dp awards2
    unfold latestPendingOf
    have hinj2 : ∀ a ∈ pendingAwardsOf awards, ∀ b ∈ pendingAwardsOf awards,
        pendingSortKey dp a = pendingSortKey dp b → a = b := by
      intro a ha b hb hk
      have ha2 := List.mem_filter.mp ha
      have hb2 := List.mem_filter.mp hb
      exact hinj a ha2.1 b hb2.1 (of_decide_eq_true ha2.2) (of_decide_eq_true hb2.2) hk
    rw [jsSortByDesc_perm_eq (pendingSortKey dp) _ _ hpend hinj2]

/-- Witness for C6, applying the theorem to a two-element permutation
with tie-free keys among approved awards. -/
theorem buildCeremonySummary_order_independent_witness :
    (buildCeremonySummary dpNone [sampleApproved, samplePending]).latestApproved
      = (buildCeremonySummary dpNone [samplePending, sampleApproved]).latestApproved :=
  (buildCeremonySummary_order_independent dpNone [sampleApproved, samplePending]
    [samplePending, sampleApproved] (by decide)).2.2.1 (by decide)

theorem postAward_cases (body : PostBody) :
    (postValidationFails body ∧ ∃ msg, ∀ s, postAward s body = PostResponse.badRequest msg)
  ∨ (¬ postValidationFails body ∧ ∃ i, ∀ s, postAward s body = applyStore s i) := by
  cases hty : body.type with
  | none =>
    left
    refine ⟨Or.inr (Or.inr (Or.inl hty)),
      "Missing ceremony, category, or type information.", fun s => ?_⟩
    simp [postAward, hty]
  | some ty =>
    by_cases h1 : jsFalsyId (jsNullish body.ceremonyId body.ceremony) = true
    · left
      refine ⟨Or.inl h1, "Missing ceremony, category, or type information.", fun s => ?_⟩
      simp [postAward, hty, h1]
    · by_cases h2 : jsFalsyId (jsNullish body.categoryId body.category) = true
      · left
        refine ⟨Or.inr (Or.inl h2),
          "Missing ceremony, category, or type information.", fun s => ?_⟩
        simp [postAward, hty, h1, h2]
      · cases ty with
        | individual =>
          by_cases h3 : jsFalsyId (jsNullish body.participantId body.participant_nominee) = true
          · left
            refine ⟨Or.inr (Or.inr (Or.inr (Or.inl ⟨hty, h3⟩))),
              "Participant award requires a participant nominee.", fun s => ?_⟩
            simp [postAward, hty, h1, h2, h3]
          · right
            constructor
            · intro hf
              rcases hf with h | h | h | ⟨hty2, hp⟩ | ⟨hor, htm⟩
              · exact h1 h
              · exact h2 h
              · rw [hty] at h
                exact Option.noConfusion h
              · exact h3 hp
              · rcases hor with h5 | h5 <;>
                  (rw [hty] at h5; exact AwardType.noConfusion (Option.some.inj h5))
            · refine ⟨{ ceremony := (jsNullish body.ceremonyId body.ceremony).getD 0
                        category := (jsNullish body.categoryId body.category).getD 0
                        type := AwardType.individual
                        participant_nominee :=
                          jsNullish (jsNullish body.participantId body.participant_nominee) none
                        team_nominee := none
                        notes := body.notes
                        status := none }, fun s => ?_⟩
              simp [postAward, hty, h1, h2, h3]
        | team =>
          by_cases h4 : jsFalsyId (jsNullish body.teamId body.team_nominee) = true
          · left
            refine ⟨Or.inr (Or.inr (Or.inr (Or.inr ⟨Or.inl hty, h4⟩))),
              "Team or overall award requires a team nominee.", fun s => ?_⟩
            simp [postAward, hty, h1, h2, h4]
          · right
            constructor
            · intro hf
              rcases hf with h | h | h | ⟨hty2, hp⟩ | ⟨hor, htm⟩
              · exact h1 h
              · exact h2 h
              · rw [hty] at h
                exact Option.noConfusion h
              · rw [hty] at hty2
                exact AwardType.noConfusion (Option.some.inj hty2)
              · exact h4 htm
            · refine ⟨{ ceremony := (jsNullish body.ceremonyId body.ceremony).getD 0
                        category := (jsNullish body.categoryId body.category).getD 0
                        type := AwardType.team
                        participant_nominee := none
                        team_nominee := jsNullish (jsNullish body.teamId body.team_nominee) none
                        notes := body.notes
                        status := none }, fun s => ?_⟩
              simp [postAward, hty, h1, h2, h4]
        | overall =>
          by_cases h4 : jsFalsyId (jsNullish body.teamId body.team_nominee) = true
          · left
            refine ⟨Or.inr (Or.inr (Or.inr (Or.inr ⟨Or.inr hty, h4⟩))),
              "Team or overall award requires a team nominee.", fun s => ?_⟩
            simp [postAward, hty, h1, h2, h4]
          · right
            constructor
            · intro hf
              rcases hf with h | h | h | ⟨hty2, hp⟩ | ⟨hor, htm⟩
              · exact h1 h
              · exact h2 h
              · rw [hty] at h
                exact Option.noConfusion h
              · rw [hty] at hty2
                exact AwardType.noConfusion (Option.some.inj hty2)
              · exact h4 htm
            · refine ⟨{ ceremony := (jsNullish body.ceremonyId body.ceremony).getD 0
                        category := (jsNullish body.categoryId body.category).getD 0
                        type := AwardType.overall
                        participant_nominee := none
                        team_nominee := jsNullish (jsNullish body.teamId body.team_nominee) none
                        notes := body.notes
                        status := none }, fun s => ?_⟩
              simp [postAward, hty, h1, h2, h4]

/-- C4: the creation handler answers a 400 validation response, for every
store and before any store call (its answer is then independent of the
store), exactly when the ceremony id, category id or type is missing, an
individual-type request has no participant nominee id, or a team- or
overall-type request has no team nominee id; otherwise it forwards one
constructed input to createAward, mapping a store success to 201 and a
store failure to a distinct 500 response. -/
theorem postAward_validation (body : PostBody)
    (store store2 : CreateAwardInput → Except Unit DirectusAwardRecord) :
    ((∃ m, postAward store body = PostResponse.badRequest m) ↔ postValidationFails body)
  ∧ (postValidationFails body → postAward store body = postAward store2 body)
  ∧ (postValidationFails body → (postAward store body).statusCode = 400)
  ∧ (¬ postValidationFails body → ∃ i, postAward store body = applyStore store i
        ∧ postAward store2 body = applyStore store2 i)
  ∧ (∀ i err, store i = Except.error err → (applyStore store i).statusCode = 500)
  ∧ (∀ i a, store i = Except.ok a → (applyStore store i).statusCode = 201) := by
  refine ⟨⟨?_, ?_⟩, ?_, ?_, ?_, ?_, ?_⟩
  · rintro ⟨m, hm⟩
    rcases postAward_cases body with ⟨hf, _⟩ | ⟨hnf, i, hall⟩
    · exact hf
    · rw [hall store] at hm
      cases hsi : store i <;> simp [applyStore, hsi] at hm
  · intro hf
    rcases postAward_cases body with ⟨_, msg, hall⟩ | ⟨hnf, _⟩
    · exact ⟨msg, hall store⟩
    · exact absurd hf hnf
  · intro hf
    rcases postAward_cases body with ⟨_, msg, hall⟩ | ⟨hnf, _⟩
    · exact (hall store).trans (hall store2).symm
    · exact absurd hf hnf
  · intro hf
    rcases postAward_cases body with ⟨_, msg, hall⟩ | ⟨hnf, _⟩
    · rw [hall store]
      rfl
    · exact absurd hf hnf
  · intro hnf
    rcases postAward_cases body with ⟨hf, _⟩ | ⟨_, i, hall⟩
    · exact absurd hf hnf
    · exact ⟨i, hall store, hall store2⟩
  · intro i err h
    simp [applyStore, h, PostResponse.statusCode]
  · intro i a h
    simp [applyStore, h, PostResponse.statusCode]

/-- Witness for C4, applying the theorem to the empty request body, which
fails validation with a 400 response under the sample store. -/
theorem postAward_validation_witness :
    (postAward sampleStore {}).statusCode = 400 :=
  (postAward_validation {} sampleStore sampleStore).2.2.1 (Or.inr (Or.inr (Or.inl rfl)))
